import Mathlib

/-!
# Verification of the entity-homologation engine

Shallow embedding, in Lean 4, of the algorithmic core of
`src/data_loader.py` and `src/cargar_transformadores_infotec.py` of the
repository `Minimo-Camino-Electrico---Balance-de-Potencia`:

* name normalization (`normalizar_barra_ent`, `normalizar_barra_op`,
  `expandir_abreviaciones`),
* composite-name parsing (`extraer_voltajes_de_nombre_ent`,
  `extraer_circuito_ent`),
* the fuzzy similarity scorer (`calcular_similitud_barras`, built on
  rapidfuzz's `fuzz.ratio` and `fuzz.token_sort_ratio`),
* the candidate matcher (`homologar_lineas` and the candidate-search loop
  of `homologar_con_infotecnica`),
* the temporal override resolver (`aplicar_reemplazo_por_mes`), and
* the transformer R/X computation (`calcular_rx_transformador`).

Python floats are modelled by `ℚ` (every quantity the code manipulates is
exactly representable: similarity ratios are rationals, the adjustments are
`+2`/`-3`, and `round(x, 1)` is rounding to a multiple of `1/10`).  Missing
values (`NaN`/`NaT`/`None`) are modelled by `Option`.  `datetime` values
(always first-of-month dates in this pipeline) are modelled by `ℤ` with its
linear order (for instance `year * 12 + month`); the code only ever compares
them with `≤`/`≥`.  Strings are modelled by `String`/`List Char`, with the
ASCII case conventions of the data (Python's `str.lower`/`str.upper` is
modelled on the ASCII range).
-/

namespace BalancePotencia

attribute [local semireducible] Rat.add Rat.sub Rat.mul Rat.inv

/-! ## Python string primitives -/

/-- The whitespace characters recognised by Python's `str.split()` /
`str.strip()`, restricted to ASCII: space, `\t`, `\n`, `\r`, `\x0b`, `\x0c`. -/
def pySpace (c : Char) : Bool :=
  decide (c.toNat = 32 ∨ c.toNat = 9 ∨ c.toNat = 10 ∨ c.toNat = 13 ∨
    c.toNat = 11 ∨ c.toNat = 12)

/-- Python `str.lower()`, on the ASCII range (`A`-`Z` shifted to `a`-`z`,
everything else unchanged; the data contains only ASCII letters). -/
def pyLower (c : Char) : Char :=
  if h : 65 ≤ c.toNat ∧ c.toNat ≤ 90 then
    Char.ofNatAux (c.toNat + 32) (Or.inl (by omega))
  else c

/-- Python `str.upper()`, on the ASCII range. -/
def pyUpper (c : Char) : Char :=
  if h : 97 ≤ c.toNat ∧ c.toNat ≤ 122 then
    Char.ofNatAux (c.toNat - 32) (Or.inl (by omega))
  else c

/-- Python `str.strip()`: drop leading and trailing whitespace. -/
def pyStrip (l : List Char) : List Char :=
  ((l.dropWhile pySpace).reverse.dropWhile pySpace).reverse

/-- `barra.replace('_', ' ').replace('.', ' ')` (both normalizers use this
pair of substitutions on single characters). -/
def replaceSeps (l : List Char) : List Char :=
  l.map fun c => if c = '_' ∨ c = '.' then ' ' else c

/-- Helper for `pySplit`: `acc` is the current (reversed) in-progress word. -/
def pySplitAux : List Char → List Char → List (List Char)
  | [], acc => if acc = [] then [] else [acc.reverse]
  | c :: cs, acc =>
    if pySpace c then
      if acc = [] then pySplitAux cs [] else acc.reverse :: pySplitAux cs []
    else pySplitAux cs (c :: acc)

/-- Python `str.split()` with no argument: split on runs of whitespace,
discarding empty fragments. -/
def pySplit (l : List Char) : List (List Char) :=
  pySplitAux l []

/-- `' '.join(ws)`: interleave a single space between fragments. -/
def joinSp : List (List Char) → List Char
  | [] => []
  | [w] => w
  | w :: ws => w ++ ' ' :: joinSp ws

/-- Lexicographic comparison of strings by code point, as Python's `<=` on
`str` (used by `sorted`). -/
def lexLe : List Char → List Char → Bool
  | [], _ => true
  | _ :: _, [] => false
  | a :: as, b :: bs =>
    if a.toNat < b.toNat then true
    else if b.toNat < a.toNat then false
    else lexLe as bs

def insertSorted (w : List Char) : List (List Char) → List (List Char)
  | [] => [w]
  | v :: vs => if lexLe w v then w :: v :: vs else v :: insertSorted w vs

/-- Python `sorted` on a list of strings (insertion sort; ties are identical
strings, so any sort by `lexLe` produces `sorted`'s output). -/
def sortLex : List (List Char) → List (List Char)
  | [] => []
  | w :: ws => insertSorted w (sortLex ws)

/-! ## rapidfuzz similarity primitives

`fuzz.ratio(s1, s2)` is the normalized Indel similarity
`100 * (1 - dist / (len1 + len2))` where the Indel distance is
`len1 + len2 - 2 * lcs(s1, s2)` (`lcs` = length of a longest common
subsequence); hence `ratio = 200 * lcs / (len1 + len2)`, and `100.0` when
both strings are empty.  `fuzz.token_sort_ratio` applies `ratio` to the
whitespace-tokenized, sorted, space-rejoined strings. -/

/-- Inner recursion of `lcs`: `f` is `lcs xs` for the fixed tail `xs`. -/
def lcsInner (x : Char) (f : List Char → Nat) : List Char → Nat
  | [] => 0
  | y :: ys => if x = y then f ys + 1 else max (lcsInner x f ys) (f (y :: ys))

/-- Length of a longest common subsequence of two character lists. -/
def lcs : List Char → List Char → Nat
  | [], _ => 0
  | x :: xs, b => lcsInner x (lcs xs) b

/-- rapidfuzz `fuzz.ratio` (see module comment above). -/
def fuzzRatio (a b : List Char) : ℚ :=
  if a.length + b.length = 0 then 100
  else 200 * (lcs a b : ℚ) / ((a.length : ℚ) + (b.length : ℚ))

/-- `" ".join(sorted(s.split()))`, the preprocessing of `token_sort_ratio`. -/
def tokenSortKey (l : List Char) : List Char :=
  joinSp (sortLex (pySplit l))

/-- rapidfuzz `fuzz.token_sort_ratio`. -/
def fuzzTokenSortRatio (a b : List Char) : ℚ :=
  fuzzRatio (tokenSortKey a) (tokenSortKey b)

/-- Python's substring test `a in b` on strings. -/
def isSub (a b : List Char) : Bool :=
  b.tails.any fun t => a.isPrefixOf t

/-- `s.replace(' ', '')`. -/
def quitarEspacios (l : List Char) : List Char :=
  l.filter fun c => c != ' '

/-- `calcular_similitud_barras` (`data_loader.py`, lines 794-824): maximum of
the space-stripped `fuzz.ratio` (raised to at least 90 when either
space-stripped name contains the other) and `fuzz.token_sort_ratio`. -/
def calcular_similitud_barras (barra_ent barra_op : String) : ℚ :=
  let ent_sin_espacios := quitarEspacios barra_ent.data
  let op_sin_espacios := quitarEspacios barra_op.data
  let score_sin_espacios := fuzzRatio ent_sin_espacios op_sin_espacios
  let score_token := fuzzTokenSortRatio barra_ent.data barra_op.data
  let score_sin_espacios_b :=
    if isSub ent_sin_espacios op_sin_espacios || isSub op_sin_espacios ent_sin_espacios
    then max score_sin_espacios 90 else score_sin_espacios
  max score_sin_espacios_b score_token

/-! ## Normalization (`normalizar_barra_ent`, `normalizar_barra_op`) -/

/-- `re.sub(r'_*(\d{2,3})$', '', barra)` (first step of `normalizar_barra_ent`,
`data_loader.py` line 549).  Let `k` be the length of the trailing digit run.
The pattern matches iff `k ≥ 2` (the digit group is anchored at the end and
must contain 2 or 3 digits, and for `k ≥ 4` the leftmost viable match takes
exactly the last 3 digits, since `_*` cannot absorb digits).  The leftmost
match therefore removes the last `min k 3` digits and, when the digit run is
consumed entirely (`k ≤ 3`), also the run of underscores immediately before
it. -/
def stripVoltEnt (l : List Char) : List Char :=
  let r := l.reverse
  let k := (r.takeWhile Char.isDigit).length
  if 2 ≤ k then
    let r1 := r.drop (min k 3)
    let r2 := if k ≤ 3 then r1.dropWhile (fun c => c == '_') else r1
    r2.reverse
  else l

/-- `re.sub(r'\s+\d{2,3}$', '', barra)` (first step of `normalizar_barra_op`,
`data_loader.py` line 571).  A match exists iff the string ends in a run of
exactly 2 or 3 digits immediately preceded by whitespace (a trailing run of
≥ 4 digits cannot match because the character before the matched digits must
be whitespace); the leftmost match removes the whole whitespace run and the
digits. -/
def stripVoltOp (l : List Char) : List Char :=
  let r := l.reverse
  let k := (r.takeWhile Char.isDigit).length
  if 2 ≤ k ∧ k ≤ 3 then
    let r1 := r.drop k
    if r1.takeWhile pySpace = [] then l
    else (r1.dropWhile pySpace).reverse
  else l

/-- `normalizar_barra_ent` (`data_loader.py`, lines 532-553): strip the
trailing voltage suffix, replace `_` and `.` by spaces, then
`' '.join(barra.split()).lower().strip()`. -/
def normalizar_barra_ent (barra : String) : String :=
  let l1 := stripVoltEnt barra.data
  let l2 := replaceSeps l1
  let l3 := (joinSp (pySplit l2)).map pyLower
  ⟨pyStrip l3⟩

/-- `normalizar_barra_op` (`data_loader.py`, lines 556-575): same pipeline but
the voltage suffix must be preceded by whitespace. -/
def normalizar_barra_op (barra : String) : String :=
  let l1 := stripVoltOp barra.data
  let l2 := replaceSeps l1
  let l3 := (joinSp (pySplit l2)).map pyLower
  ⟨pyStrip l3⟩

/-! ## Abbreviation expansion (`expandir_abreviaciones`) -/

/-- The `ABREVIACIONES` dictionary (`data_loader.py`, lines 25-39), in
insertion order. -/
def ABREVIACIONES : List (String × String) :=
  [ ("D.ALMAGRO", "DIEGO DE ALMAGRO"),
    ("S.VICENTE", "SAN VICENTE"),
    ("S.ANTONIO", "SAN ANTONIO"),
    ("S.FELIPE", "SAN FELIPE"),
    ("S.FERNANDO", "SAN FERNANDO"),
    ("S.CARLOS", "SAN CARLOS"),
    ("S.PEDRO", "SAN PEDRO"),
    ("S.RAFAEL", "SAN RAFAEL"),
    ("STA.ROSA", "SANTA ROSA"),
    ("STA.ELISA", "SANTA ELISA"),
    ("L.CHANGOS", "LOS CHANGOS"),
    ("L.VILOS", "LOS VILOS"),
    ("L.ANGELES", "LOS ANGELES") ]

/-- Stable insertion step for sorting by key length, descending (an element
is placed before the first element whose key is not strictly longer, which
reproduces the stability of Python's `sorted`). -/
def insertPorLargo (p : String × String) :
    List (String × String) → List (String × String)
  | [] => [p]
  | q :: qs =>
    if q.1.length ≤ p.1.length then p :: q :: qs else q :: insertPorLargo p qs

/-- `sorted(ABREVIACIONES.items(), key=lambda x: len(x[0]), reverse=True)`. -/
def ordenarPorLargo : List (String × String) → List (String × String)
  | [] => []
  | p :: ps => insertPorLargo p (ordenarPorLargo ps)

/-- Python `s.replace(old, new)`: replace non-overlapping occurrences left to
right.  The fuel argument (instantiated with `l.length`) only serves
structural termination; each step consumes at least one input character
whenever the pattern is nonempty, as it is for every key of
`ABREVIACIONES`. -/
def replaceAllFuel (p r : List Char) : Nat → List Char → List Char
  | 0, l => l
  | _ + 1, [] => []
  | fuel + 1, c :: cs =>
    if p ≠ [] ∧ p.isPrefixOf (c :: cs) then
      r ++ replaceAllFuel p r fuel ((c :: cs).drop p.length)
    else c :: replaceAllFuel p r fuel cs

def replaceAll (p r l : List Char) : List Char :=
  replaceAllFuel p r l.length l

/-- `expandir_abreviaciones` (`data_loader.py`, lines 42-52): uppercase the
text, then apply each abbreviation substitution in descending key-length
order. -/
def expandir_abreviaciones (texto : String) : String :=
  let texto_upper := texto.data.map pyUpper
  ⟨(ordenarPorLargo ABREVIACIONES).foldl
      (fun acc p => replaceAll p.1.data p.2.data acc) texto_upper⟩

/-! ## Composite-name parsing -/

/-- Split on the literal separator `->` (Python `s.split('->')`),
accumulator-based. -/
def splitArrowAux : List Char → List Char → List (List Char)
  | [], acc => [acc.reverse]
  | '-' :: '>' :: rest, acc => acc.reverse :: splitArrowAux rest []
  | c :: cs, acc => splitArrowAux cs (c :: acc)

def splitArrow (l : List Char) : List (List Char) :=
  splitArrowAux l []

/-- Numeric value of a digit run. -/
def natDeDigitos (l : List Char) : Nat :=
  l.foldl (fun a c => 10 * a + (c.toNat - 48)) 0

/-- One anchored attempt of `re.search(r'(\d{2,3})(?:_|$)', parte)` at the
head of the list: greedily try three digits followed by `_` or the end, then
two digits followed by `_` (two digits followed by the end is the
two-element case). -/
def tryVoltNombre : List Char → Option ℚ
  | [c1, c2] =>
    if c1.isDigit ∧ c2.isDigit then some ((natDeDigitos [c1, c2] : ℕ) : ℚ)
    else none
  | c1 :: c2 :: c3 :: rest =>
    if c1.isDigit ∧ c2.isDigit ∧ c3.isDigit ∧ (rest = [] ∨ rest.head? = some '_')
    then some ((natDeDigitos [c1, c2, c3] : ℕ) : ℚ)
    else if c1.isDigit ∧ c2.isDigit ∧ c3 = '_' then
      some ((natDeDigitos [c1, c2] : ℕ) : ℚ)
    else none
  | _ => none

/-- Leftmost search for `(\d{2,3})(?:_|$)`. -/
def buscarVoltNombre : List Char → Option ℚ
  | [] => none
  | c :: cs =>
    match tryVoltNombre (c :: cs) with
    | some v => some v
    | none => buscarVoltNombre cs

/-- `extraer_voltajes_de_nombre_ent` (`data_loader.py`, lines 703-741): split
the ENT line name on `->`; if that does not give exactly two parts (in
particular when there is no arrow) return `(None, None)`, else search each
stripped part for the first 2-3 digit run followed by `_` or the end. -/
def extraer_voltajes_de_nombre_ent (nombre : String) : Option ℚ × Option ℚ :=
  match splitArrow nombre.data with
  | [a, b] => (buscarVoltNombre (pyStrip a), buscarVoltNombre (pyStrip b))
  | _ => (none, none)

/-- One anchored attempt of `re.search(r'_(\d+)de\d+$', nombre)` at the head
of the list: an underscore, a nonempty maximal digit run (the group), the
literal `de`, and a nonempty digit run extending to the end of the string. -/
def tryCircEnt (l : List Char) : Option Nat :=
  match l with
  | '_' :: rest =>
    let d1 := rest.takeWhile Char.isDigit
    let r1 := rest.drop d1.length
    if d1 = [] then none
    else
      match r1 with
      | 'd' :: 'e' :: r2 =>
        if r2 ≠ [] ∧ r2.all Char.isDigit then some (natDeDigitos d1) else none
      | _ => none
  | _ => none

def buscarCircEnt : List Char → Option Nat
  | [] => none
  | c :: cs =>
    match tryCircEnt (c :: cs) with
    | some n => some n
    | none => buscarCircEnt cs

/-- `extraer_circuito_ent` (`data_loader.py`, lines 628-646): `_<n>de<m>`
suffix gives circuit `n`, otherwise `None`. -/
def extraer_circuito_ent (nombre : String) : Option Nat :=
  buscarCircEnt nombre.data

/-! ## The candidate matcher (`homologar_lineas`) -/

/-- Python `round(q, 1)` (modelled as round-half-up to a multiple of `1/10`;
every concrete value this development evaluates it on is an exact multiple of
`1/20` away from a tie, so the difference with banker's rounding never
shows).  `q.num / q.den` is `⌊q⌋` (`Rat.floor_def`), written this way so that
the kernel can evaluate it. -/
def round1 (q : ℚ) : ℚ :=
  let q10 := q * 10 + 1 / 2
  ((q10.num / (q10.den : ℤ) : ℤ) : ℚ) / 10

/-- One pre-processed operation-side candidate, i.e. one entry of the
`lineas_op_info` list built in `homologar_lineas` (`data_loader.py`, lines
864-886): `barra_a`/`barra_b` are the `normalizar_barra_op`-normalized
endpoint names extracted from `LinNom`, `voltaje`/`voltaje_a`/`voltaje_b`
the parsed voltages, `circuito` the parsed circuit number.  (The `LinR`/
`LinX` and replacement pass-through fields, which the matcher copies into
its output without inspecting, are not modelled.) -/
structure OpInfo where
  linnom : String
  barra_a : String
  barra_b : String
  voltaje : Option ℚ
  voltaje_a : Option ℚ
  voltaje_b : Option ℚ
  circuito : Option ℕ
  deriving DecidableEq

/-- The per-candidate score of `homologar_lineas`: adjusted confidence, the
two per-side similarities of the chosen orientation, and the orientation
flag. -/
structure Score where
  conf : ℚ
  simA : ℚ
  simB : ℚ
  inv : Bool
  deriving DecidableEq

/-- The voltage filter of the candidate loop (`data_loader.py`, lines
908-911): reject when both the reference voltage and the candidate's
`voltaje` are present and differ by more than 5 kV. -/
def filtroVoltaje (ve vo : Option ℚ) : Bool :=
  match ve, vo with
  | some x, some y => decide (|x - y| > 5)
  | _, _ => false

/-- The voltage-name adjustment (`data_loader.py`, lines 934-954): when the
two name-derived reference voltages and the candidate's two per-side voltages
are all present, add `2` if both sides line up with the chosen orientation
within 5 kV and subtract `3` otherwise (the source's `elif not coincide_a or
not coincide_b` is the exact complement of `coincide_a and coincide_b`). -/
def ajusteVoltaje (inv : Bool) (vAn vBn vaOp vbOp : Option ℚ) (conf : ℚ) : ℚ :=
  match vAn, vBn with
  | some a, some b =>
    (match vaOp, vbOp with
     | some va, some vb =>
       let ca : Bool := if inv then decide (|a - vb| ≤ 5) else decide (|a - va| ≤ 5)
       let cb : Bool := if inv then decide (|b - va| ≤ 5) else decide (|b - vb| ≤ 5)
       if ca && cb then conf + 2 else conf - 3
     | _, _ => conf)
  | _, _ => conf

/-- The body of the candidate loop of `homologar_lineas` (`data_loader.py`,
lines 907-954) for one candidate: voltage filter, similarity of both
orientations, choice of the better orientation (normal wins ties), voltage
adjustment.  Returns `none` when the candidate is filtered out. -/
def score_candidato (bA bB : String) (vAn vBn ve : Option ℚ) (c : OpInfo) :
    Option Score :=
  if filtroVoltaje ve c.voltaje then none
  else
    let sim_a := calcular_similitud_barras bA c.barra_a
    let sim_b := calcular_similitud_barras bB c.barra_b
    let confianza_normal := min sim_a sim_b
    let sim_a_inv := calcular_similitud_barras bA c.barra_b
    let sim_b_inv := calcular_similitud_barras bB c.barra_a
    let confianza_invertida := min sim_a_inv sim_b_inv
    if confianza_normal ≥ confianza_invertida then
      some ⟨ajusteVoltaje false vAn vBn c.voltaje_a c.voltaje_b confianza_normal,
            sim_a, sim_b, false⟩
    else
      some ⟨ajusteVoltaje true vAn vBn c.voltaje_a c.voltaje_b confianza_invertida,
            sim_a_inv, sim_b_inv, true⟩

/-- Running best-match state of the candidate loop (`mejor_match`,
`mejor_confianza`, `mejor_sim_a`, `mejor_sim_b`, `match_invertido`). -/
structure BestState where
  mejor : Option OpInfo
  conf : ℚ
  simA : ℚ
  simB : ℚ
  inv : Bool
  deriving DecidableEq

/-- One iteration of the candidate loop: keep the candidate iff its adjusted
score strictly exceeds the best so far (`data_loader.py`, lines 956-961). -/
def pasoBusqueda (bA bB : String) (vAn vBn ve : Option ℚ)
    (st : BestState) (c : OpInfo) : BestState :=
  match score_candidato bA bB vAn vBn ve c with
  | none => st
  | some s => if s.conf > st.conf then ⟨some c, s.conf, s.simA, s.simB, s.inv⟩ else st

/-- The whole candidate loop, starting from
`mejor_match = None, mejor_confianza = 0, mejor_sim_a = 0, mejor_sim_b = 0`. -/
def buscarMejor (bA bB : String) (vAn vBn ve : Option ℚ)
    (pool : List OpInfo) : BestState :=
  pool.foldl (pasoBusqueda bA bB vAn vBn ve) ⟨none, 0, 0, 0, false⟩

/-- One reference row of the ENT sheet, as `homologar_lineas` reads it
(`row_ent['nombre']`, `row_ent['barra_a']`, `row_ent['barra_b']`,
`row_ent['voltaje_kv']`; the `R`/`X` pass-through columns are not
modelled). -/
structure EntRow where
  nombre : String
  barra_a : String
  barra_b : String
  voltaje_kv : Option ℚ
  deriving DecidableEq

/-- One output row of `homologar_lineas` (`data_loader.py`, lines 967-997),
restricted to the fields with matcher content (`es_transformador` and the
copied `R`/`X` columns are not modelled). -/
structure Resultado where
  nombre : String
  match_linnom : Option String
  confianza : ℚ
  sim_barra_a : ℚ
  sim_barra_b : ℚ
  match_invertido : Option Bool
  requiere_revision : Bool
  circuito_ent : Option ℕ
  circuito_op : Option ℕ
  deriving DecidableEq

/-- Processing of one ENT reference row by `homologar_lineas`
(`data_loader.py`, lines 891-998): normalize the two endpoints, parse the
circuit and the name voltages, run the candidate loop, round the reported
values to one decimal and classify `requiere_revision`
(`umbral_confianza <= mejor_confianza < 80`, on the unrounded value). -/
def homologar_fila (umbral_confianza : ℚ) (row : EntRow) (pool : List OpInfo) :
    Resultado :=
  let bA := normalizar_barra_ent row.barra_a
  let bB := normalizar_barra_ent row.barra_b
  let vn := extraer_voltajes_de_nombre_ent row.nombre
  let st := buscarMejor bA bB vn.1 vn.2 row.voltaje_kv pool
  { nombre := row.nombre
    match_linnom := st.mejor.map (·.linnom)
    confianza := round1 st.conf
    sim_barra_a := round1 st.simA
    sim_barra_b := round1 st.simB
    match_invertido := if st.mejor.isSome then some st.inv else none
    requiere_revision := decide (umbral_confianza ≤ st.conf ∧ st.conf < 80)
    circuito_ent := extraer_circuito_ent row.nombre
    circuito_op := st.mejor.bind (·.circuito) }

/-- `homologar_lineas` over a list of reference rows and the pre-processed
candidate pool (the source builds the pool from `df_operacion` in lines
864-886 and then iterates the rows of `df_ent`). -/
def homologar_lineas (umbral_confianza : ℚ) (df_ent : List EntRow)
    (pool : List OpInfo) : List Resultado :=
  df_ent.map fun row => homologar_fila umbral_confianza row pool

/-! ## The Infotécnica candidate search (`homologar_con_infotecnica`) -/

/-- One pre-processed Infotécnica candidate, i.e. one entry of the
`infotec_info` list built in `homologar_con_infotecnica` (`data_loader.py`,
lines 1114-1147).  `voltaje_secundario` is present exactly for transformer
records.  (`R_total`/`X_total`, copied into the output without inspection,
are not modelled.) -/
structure InfotecInfo where
  nombre_original : String
  barra_a : String
  barra_b : String
  voltaje : Option ℚ
  voltaje_secundario : Option ℚ
  circuito : Option ℕ
  deriving DecidableEq

structure BestInfotec where
  mejor : Option InfotecInfo
  conf : ℚ
  simA : ℚ
  simB : ℚ
  inv : Bool
  deriving DecidableEq

/-- The voltage filter of the Infotécnica candidate loop (`data_loader.py`,
lines 1168-1187): for transformer candidates both per-side voltages must be
within 5 kV (whenever both sides of a comparison are present), for line
candidates only the single voltage is checked. -/
def filtroVoltajeInfotec (vA vB : Option ℚ) (info : InfotecInfo) : Bool :=
  match info.voltaje_secundario with
  | some vs =>
    (match vA, info.voltaje with
     | some x, some y => decide (|x - y| > 5)
     | _, _ => false) ||
    (match vB with
     | some x => decide (|x - vs| > 5)
     | none => false)
  | none =>
    match vA, info.voltaje with
    | some x, some y => decide (|x - y| > 5)
    | _, _ => false

/-- One iteration of the candidate loop of `homologar_con_infotecnica`
(`data_loader.py`, lines 1167-1213): voltage filter, both orientations,
better orientation (normal wins ties), strict improvement over the best so
far.  There is no voltage-name adjustment in this loop. -/
def pasoInfotec (bA bB : String) (vA vB : Option ℚ)
    (st : BestInfotec) (info : InfotecInfo) : BestInfotec :=
  if filtroVoltajeInfotec vA vB info then st
  else
    let sim_a := calcular_similitud_barras bA info.barra_a
    let sim_b := calcular_similitud_barras bB info.barra_b
    let confianza_normal := min sim_a sim_b
    let sim_a_inv := calcular_similitud_barras bA info.barra_b
    let sim_b_inv := calcular_similitud_barras bB info.barra_a
    let confianza_invertida := min sim_a_inv sim_b_inv
    let s : Score :=
      if confianza_normal ≥ confianza_invertida then
        ⟨confianza_normal, sim_a, sim_b, false⟩
      else
        ⟨confianza_invertida, sim_a_inv, sim_b_inv, true⟩
    if s.conf > st.conf then ⟨some info, s.conf, s.simA, s.simB, s.inv⟩ else st

/-- The candidate search of `homologar_con_infotecnica` for one reference
record (normalized endpoints `bA`, `bB` and per-side voltages `vA`, `vB`). -/
def buscar_mejor_infotec (bA bB : String) (vA vB : Option ℚ)
    (pool : List InfotecInfo) : BestInfotec :=
  pool.foldl (pasoInfotec bA bB vA vB) ⟨none, 0, 0, 0, false⟩

/-! ## The temporal override resolver (`aplicar_reemplazo_por_mes`) -/

/-- One row of the operational table, restricted to the columns
`aplicar_reemplazo_por_mes` reads.  Dates are first-of-month `datetime`
values, modelled by `ℤ` (only order is used); `none` is `NaT`/`NaN`. -/
structure OpRow where
  linNom : String
  linR : Option ℚ
  linX : Option ℚ
  linFOpe : Option Bool
  linFecOpeIni : Option ℤ
  deriving DecidableEq

/-- One row of the maintenance table, restricted to the columns used. -/
structure ManRow where
  linNom : String
  linFMan : Option Bool
  linFecIni : Option ℤ
  linFecFin : Option ℤ
  linR : Option ℚ
  linX : Option ℚ
  deriving DecidableEq

/-- One output row of `aplicar_reemplazo_por_mes` (the columns with
resolver content: `LinR`, `LinX`, `hay_reemplazo`, `fuente` and the two
provenance columns `LinR_operacion_original`/`LinX_operacion_original`). -/
structure ResRow where
  linNom : String
  linR : Option ℚ
  linX : Option ℚ
  hay_reemplazo : Bool
  fuente : String
  linR_operacion_original : Option ℚ
  linX_operacion_original : Option ℚ
  deriving DecidableEq

/-- `verificar_reemplazo` (`data_loader.py`, lines 441-461): no joined
maintenance row gives `False`; a joined row with `man_LinFMan == False`
gives `False`; both dates `NaT` gives `True`; otherwise the month must be
inside the inclusive window, a `NaT` bound being unbounded. -/
def verificar_reemplazo (fecha_trabajo : ℤ) : Option ManRow → Bool
  | none => false
  | some m =>
    if m.linFMan == some false then false
    else if m.linFecIni == none && m.linFecFin == none then true
    else
      (match m.linFecIni with
       | none => true
       | some d => decide (fecha_trabajo ≥ d)) &&
      (match m.linFecFin with
       | none => true
       | some d => decide (fecha_trabajo ≤ d))

/-- The per-row replacement of `aplicar_reemplazo_por_mes` (`data_loader.py`,
lines 463-512): compute `hay_reemplazo` and `fuente`, and replace `LinR`
(resp. `LinX`) by the maintenance value exactly when `hay_reemplazo` holds
and that maintenance value is not missing, saving the operational value in
the `_operacion_original` column (initialised to `None`). -/
def procesar_par (fecha_trabajo : ℤ) (o : OpRow) (m : Option ManRow) : ResRow :=
  let hay := verificar_reemplazo fecha_trabajo m
  let manR := m.bind (·.linR)
  let manX := m.bind (·.linX)
  let reemplazaR := hay && manR.isSome
  let reemplazaX := hay && manX.isSome
  { linNom := o.linNom
    linR := if reemplazaR then manR else o.linR
    linX := if reemplazaX then manX else o.linX
    hay_reemplazo := hay
    fuente := if hay then "mantenimiento" else "operacion"
    linR_operacion_original := if reemplazaR then o.linR else none
    linX_operacion_original := if reemplazaX then o.linX else none }

/-- `cruzar_operacion_mantenimiento` (`data_loader.py`, lines 304-341): a
left join on `LinNom` — one output pair per matching maintenance row, or a
single pair with no maintenance row (`tiene_mantenimiento = False`). -/
def cruzar (ops : List OpRow) (mans : List ManRow) :
    List (OpRow × Option ManRow) :=
  ops.flatMap fun o =>
    let ms := mans.filter fun m => m.linNom == o.linNom
    match ms with
    | [] => [(o, none)]
    | _ => ms.map fun m => (o, some m)

/-- `aplicar_reemplazo_por_mes` (`data_loader.py`, lines 379-512): keep
operational rows with `LinFOpe == True` whose start date is `NaT` or
`≤ fecha_trabajo`; keep maintenance rows with `LinFMan == True`; join; apply
the per-row override resolution. -/
def aplicar_reemplazo_por_mes (fecha_trabajo : ℤ) (ops : List OpRow)
    (mans : List ManRow) : List ResRow :=
  let ops1 := ops.filter fun o => o.linFOpe == some true
  let mans1 := mans.filter fun m => m.linFMan == some true
  let ops2 := ops1.filter fun o =>
    match o.linFecOpeIni with
    | none => true
    | some d => decide (d ≤ fecha_trabajo)
  (cruzar ops2 mans1).map fun par => procesar_par fecha_trabajo par.1 par.2

/-! ## Transformer R/X (`calcular_rx_transformador`) -/

/-- `calcular_rx_transformador` (`cargar_transformadores_infotec.py`, lines
89-148).  `np.sqrt` is modelled by an arbitrary function parameter `sqrtQ`
(its value is only used on the success path, and no claim depends on the
numeric value of `X_ohm`); missing inputs are `none`. -/
def calcular_rx_transformador (sqrtQ : ℚ → ℚ)
    (S_MVA V_kV Z_percent Pcu_kW : Option ℚ) :
    Option ℚ × Option ℚ × Option String :=
  match S_MVA with
  | none => (none, none, some "Falta S_MVA (Capacidad nominal)")
  | some s =>
    match V_kV with
    | none => (none, none, some "Falta V_kV (Tension nominal)")
    | some v =>
      match Z_percent with
      | none => (none, none, some "Falta Z% (Impedancia)")
      | some z =>
        match Pcu_kW with
        | none => (none, none, some "Falta Pcu_kW (Perdidas en cobre)")
        | some p =>
          if s ≤ 0 then (none, none, some "S_MVA <= 0 (invalido)")
          else if v ≤ 0 then (none, none, some "V_kV <= 0 (invalido)")
          else
            let R_percent := (p * 100) / (s * 1000)
            if z * z < R_percent * R_percent then
              (none, none,
               some ("Z%^2 < R%^2 (Z=" ++ toString z ++ "%, R=" ++
                     toString R_percent ++ "%)"))
            else
              let X_percent := sqrtQ (z * z - R_percent * R_percent)
              let Z_base := v * v / s
              (some ((R_percent / 100) * Z_base),
               some ((X_percent / 100) * Z_base), none)

/-! ## Auxiliary predicates used by the proofs -/

/-- Invariant maintained by the candidate loop of `homologar_lineas`. -/
def InvBusqueda (st : BestState) : Prop :=
  0 ≤ st.conf ∧ st.conf ≤ 102 ∧ st.conf ≤ min st.simA st.simB + 2 ∧
    0 ≤ st.simA ∧ st.simA ≤ 100 ∧ 0 ≤ st.simB ∧ st.simB ≤ 100

/-- The shared post-stripping pipeline of both normalizers:
`pyStrip ∘ map pyLower ∘ joinSp ∘ pySplit ∘ replaceSeps`. -/
def limpiar (l : List Char) : List Char :=
  pyStrip ((joinSp (pySplit (replaceSeps l))).map pyLower)

/-- Canonical fragments: nonempty, whitespace-free, separator-free,
case-stable. -/
def TokensCanon (ws : List (List Char)) : Prop :=
  ∀ w ∈ ws, w ≠ [] ∧
    ∀ c ∈ w, pySpace c = false ∧ c ≠ '_' ∧ c ≠ '.' ∧ pyLower c = c

/-! ## Bounds on the similarity scorer -/

theorem lcsInner_le (x : Char) (f : List Char → Nat) (n : Nat)
    (hf : ∀ c, f c ≤ n) (hf2 : ∀ c, f c ≤ c.length) :
    ∀ b, lcsInner x f b ≤ n + 1 ∧ lcsInner x f b ≤ b.length
  | [] => by simp [lcsInner]
  | y :: ys => by
    have ih := lcsInner_le x f n hf hf2 ys
    simp only [lcsInner, List.length_cons]
    split
    · exact ⟨Nat.succ_le_succ (hf ys), Nat.succ_le_succ (hf2 ys)⟩
    · refine ⟨max_le ih.1 (le_trans (hf (y :: ys)) (Nat.le_succ n)), ?_⟩
      exact max_le (le_trans ih.2 (Nat.le_succ _)) (hf2 (y :: ys))

theorem lcs_le : ∀ a b : List Char, lcs a b ≤ a.length ∧ lcs a b ≤ b.length
  | [], b => by simp [lcs]
  | x :: xs, b => by
    have h := lcsInner_le x (lcs xs) xs.length
      (fun c => (lcs_le xs c).1) (fun c => (lcs_le xs c).2) b
    simpa [lcs] using h

theorem fuzzRatio_nonneg (a b : List Char) : 0 ≤ fuzzRatio a b := by
  unfold fuzzRatio
  split
  · norm_num
  · apply div_nonneg
    · positivity
    · positivity

theorem fuzzRatio_le_100 (a b : List Char) : fuzzRatio a b ≤ 100 := by
  unfold fuzzRatio
  split
  · exact le_refl _
  · rename_i h
    have hpos : 0 < (a.length : ℚ) + (b.length : ℚ) := by
      have : 0 < a.length + b.length := Nat.pos_of_ne_zero h
      exact_mod_cast this
    rw [div_le_iff₀ hpos]
    have h1 : (lcs a b : ℚ) ≤ (a.length : ℚ) := by exact_mod_cast (lcs_le a b).1
    have h2 : (lcs a b : ℚ) ≤ (b.length : ℚ) := by exact_mod_cast (lcs_le a b).2
    linarith

theorem similitud_nonneg (a b : String) : 0 ≤ calcular_similitud_barras a b := by
  unfold calcular_similitud_barras
  exact le_trans (fuzzRatio_nonneg _ _) (le_max_right _ _)

theorem similitud_le_100 (a b : String) : calcular_similitud_barras a b ≤ 100 := by
  unfold calcular_similitud_barras
  apply max_le
  · split
    · exact max_le (fuzzRatio_le_100 _ _) (by norm_num)
    · exact fuzzRatio_le_100 _ _
  · exact fuzzRatio_le_100 _ _

theorem similitud_ge_90_de_contencion (a b : String)
    (h : isSub (quitarEspacios a.data) (quitarEspacios b.data) = true ∨
         isSub (quitarEspacios b.data) (quitarEspacios a.data) = true) :
    90 ≤ calcular_similitud_barras a b := by
  unfold calcular_similitud_barras
  have hcond : (isSub (quitarEspacios a.data) (quitarEspacios b.data) ||
      isSub (quitarEspacios b.data) (quitarEspacios a.data)) = true := by
    rcases h with h | h <;> simp [h]
  dsimp only
  rw [if_pos hcond]
  exact le_trans (le_max_right _ 90) (le_max_left _ _)

theorem isSub_nil (l : List Char) : isSub [] l = true := by
  cases l <;> simp [isSub, List.isPrefixOf]

/-! ## Properties of `round1` -/

theorem round1_eq (q : ℚ) : round1 q = ((round (q * 10) : ℤ) : ℚ) / 10 := by
  unfold round1
  dsimp only
  rw [round_eq, ← Rat.floor_def]

theorem round1_mono : Monotone round1 := by
  intro x y h
  rw [round1_eq, round1_eq]
  have hr : round (x * 10) ≤ round (y * 10) := by
    rw [round_eq, round_eq]
    exact Int.floor_mono (by linarith)
  have : ((round (x * 10) : ℤ) : ℚ) ≤ ((round (y * 10) : ℤ) : ℚ) := by exact_mod_cast hr
  linarith

theorem round1_add_two (q : ℚ) : round1 (q + 2) = round1 q + 2 := by
  rw [round1_eq, round1_eq]
  have h : (q + 2) * 10 = q * 10 + ((20 : ℤ) : ℚ) := by push_cast; ring
  rw [h, round_add_int]
  push_cast
  ring

theorem round1_nonneg (q : ℚ) (h : 0 ≤ q) : 0 ≤ round1 q := by
  have h0 : round1 0 = 0 := by decide
  calc (0 : ℚ) = round1 0 := h0.symm
    _ ≤ round1 q := round1_mono h

theorem round1_le_102 (q : ℚ) (h : q ≤ 102) : round1 q ≤ 102 := by
  calc round1 q ≤ round1 102 := round1_mono h
    _ = 102 := by decide

theorem round1_min (a b : ℚ) : round1 (min a b) = min (round1 a) (round1 b) :=
  round1_mono.map_min

/-! ## The search invariant of the candidate loop -/

theorem ajuste_le (inv : Bool) (vAn vBn va vb : Option ℚ) (conf : ℚ) :
    ajusteVoltaje inv vAn vBn va vb conf ≤ conf + 2 := by
  unfold ajusteVoltaje
  cases vAn <;> cases vBn <;> try linarith
  cases va <;> cases vb <;> dsimp only <;> try linarith
  all_goals
    first
    | linarith
    | (split <;> first
        | linarith
        | (split <;> linarith))

theorem score_candidato_bounds (bA bB : String) (vAn vBn ve : Option ℚ)
    (c : OpInfo) (s : Score) (h : score_candidato bA bB vAn vBn ve c = some s) :
    0 ≤ s.simA ∧ s.simA ≤ 100 ∧ 0 ≤ s.simB ∧ s.simB ≤ 100 ∧
      s.conf ≤ min s.simA s.simB + 2 ∧ s.conf ≤ 102 := by
  have nsa := similitud_nonneg bA c.barra_a
  have nsb := similitud_nonneg bB c.barra_b
  have nsai := similitud_nonneg bA c.barra_b
  have nsbi := similitud_nonneg bB c.barra_a
  have lsa := similitud_le_100 bA c.barra_a
  have lsb := similitud_le_100 bB c.barra_b
  have lsai := similitud_le_100 bA c.barra_b
  have lsbi := similitud_le_100 bB c.barra_a
  unfold score_candidato at h
  split at h
  · exact absurd h (by simp)
  · dsimp only at h
    split at h <;> (simp only [Option.some.injEq] at h; subst h; dsimp only)
    · have ha := ajuste_le false vAn vBn c.voltaje_a c.voltaje_b
        (min (calcular_similitud_barras bA c.barra_a)
             (calcular_similitud_barras bB c.barra_b))
      have hm := min_le_left (calcular_similitud_barras bA c.barra_a)
        (calcular_similitud_barras bB c.barra_b)
      exact ⟨nsa, lsa, nsb, lsb, ha, by linarith⟩
    · have ha := ajuste_le true vAn vBn c.voltaje_a c.voltaje_b
        (min (calcular_similitud_barras bA c.barra_b)
             (calcular_similitud_barras bB c.barra_a))
      have hm := min_le_left (calcular_similitud_barras bA c.barra_b)
        (calcular_similitud_barras bB c.barra_a)
      exact ⟨nsai, lsai, nsbi, lsbi, ha, by linarith⟩

theorem paso_preserva_inv (bA bB : String) (vAn vBn ve : Option ℚ)
    (st : BestState) (c : OpInfo) (h : InvBusqueda st) :
    InvBusqueda (pasoBusqueda bA bB vAn vBn ve st c) := by
  unfold pasoBusqueda
  cases hs : score_candidato bA bB vAn vBn ve c with
  | none => exact h
  | some s =>
    have hb := score_candidato_bounds bA bB vAn vBn ve c s hs
    dsimp only
    split
    · rename_i hgt
      obtain ⟨h1, h2, h3, h4, h5, h6, h7⟩ := h
      exact ⟨by linarith, hb.2.2.2.2.2, hb.2.2.2.2.1, hb.1, hb.2.1, hb.2.2.1, hb.2.2.2.1⟩
    · exact h

theorem buscar_inv (bA bB : String) (vAn vBn ve : Option ℚ) (pool : List OpInfo) :
    InvBusqueda (buscarMejor bA bB vAn vBn ve pool) := by
  unfold buscarMejor
  have h0 : InvBusqueda ⟨none, 0, 0, 0, false⟩ := by
    refine ⟨le_refl _, by norm_num, ?_, le_refl _, by norm_num, le_refl _, by norm_num⟩
    simp
  have hgen : ∀ (l : List OpInfo) (st : BestState), InvBusqueda st →
      InvBusqueda (List.foldl (pasoBusqueda bA bB vAn vBn ve) st l) := by
    intro l
    induction l with
    | nil => intro st h; exact h
    | cons c cs ih =>
      intro st h
      exact ih _ (paso_preserva_inv bA bB vAn vBn ve st c h)
  exact hgen _ _ h0

/-! ## Idempotence machinery for the normalizers

The normalizers share the post-stripping pipeline
`pyStrip ∘ map pyLower ∘ joinSp ∘ pySplit ∘ replaceSeps` (`limpiar` below);
its output is a canonical form (single interior spaces, no leading/trailing
whitespace, no `_`/`.`, case-stable characters) on which `limpiar` is the
identity. -/

theorem normalizar_barra_ent_eq (s : String) :
    normalizar_barra_ent s = ⟨limpiar (stripVoltEnt s.data)⟩ := rfl

theorem normalizar_barra_op_eq (s : String) :
    normalizar_barra_op s = ⟨limpiar (stripVoltOp s.data)⟩ := rfl

theorem char_toNat_inj {a b : Char} (h : a.toNat = b.toNat) : a = b := by
  have ha := Char.ofNat_toNat a
  have hb := Char.ofNat_toNat b
  rw [← ha, ← hb, h]

theorem pyLower_toNat (c : Char) :
    (pyLower c).toNat =
      if 65 ≤ c.toNat ∧ c.toNat ≤ 90 then c.toNat + 32 else c.toNat := by
  unfold pyLower
  split
  · rfl
  · rfl

theorem pyLower_pyLower (c : Char) : pyLower (pyLower c) = pyLower c := by
  have h := pyLower_toNat c
  apply char_toNat_inj
  rw [pyLower_toNat, h]
  split_ifs <;> omega

theorem pySpace_pyLower (c : Char) : pySpace (pyLower c) = pySpace c := by
  unfold pySpace
  rw [pyLower_toNat]
  split_ifs with h
  · rw [decide_eq_decide]; omega
  · rfl

theorem pyLower_ne_underscore {c : Char} (h : c ≠ '_') : pyLower c ≠ '_' := by
  intro he
  apply h
  have h95 : (pyLower c).toNat = 95 := by rw [he]; rfl
  rw [pyLower_toNat] at h95
  apply char_toNat_inj
  show c.toNat = 95
  by_cases hP : 65 ≤ c.toNat ∧ c.toNat ≤ 90
  · rw [if_pos hP] at h95; omega
  · rw [if_neg hP] at h95; exact h95

theorem pyLower_ne_dot {c : Char} (h : c ≠ '.') : pyLower c ≠ '.' := by
  intro he
  apply h
  have h46 : (pyLower c).toNat = 46 := by rw [he]; rfl
  rw [pyLower_toNat] at h46
  apply char_toNat_inj
  show c.toNat = 46
  by_cases hP : 65 ≤ c.toNat ∧ c.toNat ≤ 90
  · rw [if_pos hP] at h46; omega
  · rw [if_neg hP] at h46; exact h46

/-- Non-emptiness and whitespace-freeness of the fragments of `pySplit`. -/
theorem pySplitAux_good : ∀ l acc : List Char, (∀ c ∈ acc, pySpace c = false) →
    ∀ w ∈ pySplitAux l acc, w ≠ [] ∧ ∀ c ∈ w, pySpace c = false
  | [], acc, hacc => by
    simp only [pySplitAux]
    split
    · simp
    · rename_i hne
      intro w hw
      simp only [List.mem_singleton] at hw
      subst hw
      refine ⟨by simpa using hne, fun d hd => hacc d (List.mem_reverse.mp hd)⟩
  | c :: cs, acc, hacc => by
    simp only [pySplitAux]
    split
    · split
      · exact pySplitAux_good cs [] (by simp)
      · rename_i hsp hne
        intro w hw
        rcases List.mem_cons.mp hw with hw | hw
        · subst hw
          refine ⟨by simpa using hne, fun d hd => hacc d (List.mem_reverse.mp hd)⟩
        · exact pySplitAux_good cs [] (by simp) w hw
    · rename_i hsp
      refine pySplitAux_good cs (c :: acc) ?_
      intro d hd
      rcases List.mem_cons.mp hd with rfl | hd
      · simpa using hsp
      · exact hacc d hd

/-- Characters of the fragments of `pySplit` come from the input (or the
accumulator). -/
theorem pySplitAux_mem : ∀ (l acc w : List Char), w ∈ pySplitAux l acc →
    ∀ c ∈ w, c ∈ l ∨ c ∈ acc
  | [], acc, w, hw => by
    simp only [pySplitAux] at hw
    split at hw
    · simp at hw
    · simp only [List.mem_singleton] at hw
      subst hw
      intro c hc
      exact Or.inr (List.mem_reverse.mp hc)
  | a :: as, acc, w, hw => by
    simp only [pySplitAux] at hw
    split at hw
    · split at hw
      · intro c hc
        rcases pySplitAux_mem as [] w hw c hc with h | h
        · exact Or.inl (List.mem_cons_of_mem a h)
        · simp at h
      · rcases List.mem_cons.mp hw with rfl | hw2
        · intro c hc
          exact Or.inr (List.mem_reverse.mp hc)
        · intro c hc
          rcases pySplitAux_mem as [] w hw2 c hc with h | h
          · exact Or.inl (List.mem_cons_of_mem a h)
          · simp at h
    · intro c hc
      rcases pySplitAux_mem as (a :: acc) w hw c hc with h | h
      · exact Or.inl (List.mem_cons_of_mem a h)
      · rcases List.mem_cons.mp h with rfl | h2
        · exact Or.inl (by simp)
        · exact Or.inr h2

/-- Scanning a whitespace-free fragment just transfers it to the
accumulator. -/
theorem pySplitAux_append : ∀ w l acc : List Char, (∀ c ∈ w, pySpace c = false) →
    pySplitAux (w ++ l) acc = pySplitAux l (w.reverse ++ acc)
  | [], l, acc, _ => by simp
  | c :: cs, l, acc, hw => by
    have hc : pySpace c = false := hw c (List.mem_cons_self c cs)
    simp only [List.cons_append, pySplitAux]
    rw [if_neg (by simp [hc])]
    show pySplitAux (cs ++ l) (c :: acc) = pySplitAux l ((c :: cs).reverse ++ acc)
    rw [pySplitAux_append cs l (c :: acc) (fun d hd => hw d (List.mem_cons_of_mem c hd))]
    congr 1
    simp

/-- Splitting a single-space join of good fragments recovers the
fragments. -/
theorem pySplit_joinSp : ∀ ws : List (List Char),
    (∀ w ∈ ws, w ≠ [] ∧ ∀ c ∈ w, pySpace c = false) → pySplit (joinSp ws) = ws
  | [], _ => rfl
  | [w], h => by
    obtain ⟨hne, hch⟩ := h w (by simp)
    show pySplitAux (joinSp [w]) [] = [w]
    have hw : joinSp [w] = w ++ [] := by simp [joinSp]
    rw [hw, pySplitAux_append w [] [] hch]
    simp only [pySplitAux]
    rw [if_neg (by simp [hne])]
    simp
  | w :: v :: ws, h => by
    obtain ⟨hne, hch⟩ := h w (by simp)
    show pySplitAux (joinSp (w :: v :: ws)) [] = w :: v :: ws
    rw [show joinSp (w :: v :: ws) = w ++ ' ' :: joinSp (v :: ws) from rfl]
    rw [pySplitAux_append w _ [] hch]
    simp only [pySplitAux]
    rw [if_pos (by decide)]
    rw [if_neg (by simp [hne])]
    show (w.reverse ++ []).reverse :: pySplit (joinSp (v :: ws)) = w :: v :: ws
    rw [pySplit_joinSp (v :: ws) (fun u hu => h u (List.mem_cons_of_mem w hu))]
    simp

/-- Mapping a space-fixing function commutes with `joinSp`. -/
theorem map_joinSp (f : Char → Char) (hf : f ' ' = ' ') :
    ∀ ws : List (List Char), (joinSp ws).map f = joinSp (ws.map (List.map f))
  | [] => rfl
  | [w] => by simp [joinSp]
  | w :: v :: ws => by
    rw [show joinSp (w :: v :: ws) = w ++ ' ' :: joinSp (v :: ws) from rfl]
    rw [show (w :: v :: ws).map (List.map f) =
      w.map f :: (v :: ws).map (List.map f) from rfl]
    rw [show joinSp (w.map f :: (v :: ws).map (List.map f)) =
      w.map f ++ ' ' :: joinSp ((v :: ws).map (List.map f)) from (by
        cases ws <;> rfl)]
    rw [List.map_append, List.map_cons, hf, map_joinSp f hf (v :: ws)]

theorem mem_joinSp : ∀ (ws : List (List Char)) (c : Char), c ∈ joinSp ws →
    c = ' ' ∨ ∃ w ∈ ws, c ∈ w
  | [], c, h => by simp [joinSp] at h
  | [w], c, h => by
    refine Or.inr ⟨w, by simp, ?_⟩
    simpa [joinSp] using h
  | w :: v :: ws, c, h => by
    rw [show joinSp (w :: v :: ws) = w ++ ' ' :: joinSp (v :: ws) from rfl] at h
    rcases List.mem_append.mp h with h | h
    · exact Or.inr ⟨w, by simp, h⟩
    · rcases List.mem_cons.mp h with rfl | h
      · exact Or.inl rfl
      · rcases mem_joinSp (v :: ws) c h with h | ⟨u, hu, hcu⟩
        · exact Or.inl h
        · exact Or.inr ⟨u, List.mem_cons_of_mem w hu, hcu⟩

/-- The join of good fragments starts with a non-whitespace character. -/
theorem joinSp_head_struct : ∀ ws : List (List Char),
    (∀ w ∈ ws, w ≠ [] ∧ ∀ c ∈ w, pySpace c = false) → ws ≠ [] →
    ∃ d l', joinSp ws = d :: l' ∧ pySpace d = false
  | [], _, h => absurd rfl h
  | [w], hg, _ => by
    obtain ⟨hne, hch⟩ := hg w (by simp)
    cases w with
    | nil => exact absurd rfl hne
    | cons d w' => exact ⟨d, w', by simp [joinSp], hch d (by simp)⟩
  | w :: v :: ws, hg, _ => by
    obtain ⟨hne, hch⟩ := hg w (by simp)
    cases w with
    | nil => exact absurd rfl hne
    | cons d w' =>
      exact ⟨d, w' ++ ' ' :: joinSp (v :: ws), rfl, hch d (by simp)⟩

/-- The join of good fragments ends with a non-whitespace character. -/
theorem joinSp_reverse_struct : ∀ ws : List (List Char),
    (∀ w ∈ ws, w ≠ [] ∧ ∀ c ∈ w, pySpace c = false) → ws ≠ [] →
    ∃ d l', (joinSp ws).reverse = d :: l' ∧ pySpace d = false
  | [], _, h => absurd rfl h
  | [w], hg, _ => by
    obtain ⟨hne, hch⟩ := hg w (by simp)
    cases hw : w.reverse with
    | nil => exact absurd (by simpa using hw) hne
    | cons d l' =>
      refine ⟨d, l', by simp [joinSp, hw], ?_⟩
      have : d ∈ w := by
        rw [← List.mem_reverse, hw]; simp
      exact hch d this
  | w :: v :: ws, hg, _ => by
    obtain ⟨d, l', he, hd⟩ := joinSp_reverse_struct (v :: ws)
      (fun u hu => hg u (List.mem_cons_of_mem w hu)) (by simp)
    refine ⟨d, l' ++ ' ' :: w.reverse, ?_, hd⟩
    rw [show joinSp (w :: v :: ws) = w ++ ' ' :: joinSp (v :: ws) from rfl]
    rw [List.reverse_append, List.reverse_cons, he]
    simp

/-- `pyStrip` is the identity on the join of good fragments. -/
theorem pyStrip_joinSp (ws : List (List Char))
    (hg : ∀ w ∈ ws, w ≠ [] ∧ ∀ c ∈ w, pySpace c = false) :
    pyStrip (joinSp ws) = joinSp ws := by
  cases hws : ws with
  | nil => rfl
  | cons w ws' =>
    subst hws
    obtain ⟨d, l', he, hd⟩ := joinSp_head_struct (w :: ws') hg (by simp)
    obtain ⟨d2, l2, he2, hd2⟩ := joinSp_reverse_struct (w :: ws') hg (by simp)
    have h1 : (joinSp (w :: ws')).dropWhile pySpace = joinSp (w :: ws') := by
      rw [he]; simp [List.dropWhile_cons, hd]
    have h2 : (joinSp (w :: ws')).reverse.dropWhile pySpace =
        (joinSp (w :: ws')).reverse := by
      rw [he2]; simp [List.dropWhile_cons, hd2]
    unfold pyStrip
    rw [h1, h2, List.reverse_reverse]

theorem map_eq_self_of {α : Type} (f : α → α) :
    ∀ l : List α, (∀ c ∈ l, f c = c) → l.map f = l
  | [], _ => rfl
  | c :: cs, h => by
    rw [List.map_cons, h c (by simp),
      map_eq_self_of f cs (fun d hd => h d (List.mem_cons_of_mem c hd))]

theorem replaceSeps_no_sep (l : List Char) (c : Char) (hc : c ∈ replaceSeps l) :
    c ≠ '_' ∧ c ≠ '.' := by
  simp only [replaceSeps, List.mem_map] at hc
  obtain ⟨d, _, rfl⟩ := hc
  split
  · exact ⟨by decide, by decide⟩
  · rename_i h
    push_neg at h
    exact h

theorem replaceSeps_eq_self (l : List Char) (h : ∀ c ∈ l, c ≠ '_' ∧ c ≠ '.') :
    replaceSeps l = l := by
  unfold replaceSeps
  apply map_eq_self_of
  intro c hc
  rw [if_neg]
  rcases h c hc with ⟨h1, h2⟩
  rintro (rfl | rfl)
  · exact h1 rfl
  · exact h2 rfl

theorem TokensCanon.good {ws : List (List Char)} (h : TokensCanon ws) :
    ∀ w ∈ ws, w ≠ [] ∧ ∀ c ∈ w, pySpace c = false :=
  fun w hw => ⟨(h w hw).1, fun c hc => ((h w hw).2 c hc).1⟩

/-- The output of `limpiar` is the join of canonical fragments. -/
theorem limpiar_shape (l : List Char) :
    ∃ ws, TokensCanon ws ∧ limpiar l = joinSp ws := by
  refine ⟨(pySplit (replaceSeps l)).map (List.map pyLower), ?_, ?_⟩
  · intro w hw
    simp only [List.mem_map] at hw
    obtain ⟨w0, hw0, rfl⟩ := hw
    obtain ⟨hne, hch⟩ := pySplitAux_good (replaceSeps l) [] (by simp) w0 hw0
    refine ⟨by simpa using hne, ?_⟩
    intro c hc
    simp only [List.mem_map] at hc
    obtain ⟨d, hd, rfl⟩ := hc
    have hdl : d ∈ replaceSeps l := by
      rcases pySplitAux_mem (replaceSeps l) [] w0 hw0 d hd with h | h
      · exact h
      · simp at h
    obtain ⟨hd1, hd2⟩ := replaceSeps_no_sep l d hdl
    exact ⟨by rw [pySpace_pyLower]; exact hch d hd,
      pyLower_ne_underscore hd1, pyLower_ne_dot hd2, pyLower_pyLower d⟩
  · unfold limpiar
    rw [map_joinSp pyLower (by decide)]
    apply pyStrip_joinSp
    intro w hw
    simp only [List.mem_map] at hw
    obtain ⟨w0, hw0, rfl⟩ := hw
    obtain ⟨hne, hch⟩ := pySplitAux_good (replaceSeps l) [] (by simp) w0 hw0
    refine ⟨by simpa using hne, ?_⟩
    intro c hc
    simp only [List.mem_map] at hc
    obtain ⟨d, hd, rfl⟩ := hc
    rw [pySpace_pyLower]
    exact hch d hd

/-- `limpiar` is the identity on the join of canonical fragments. -/
theorem limpiar_joinSp (ws : List (List Char)) (h : TokensCanon ws) :
    limpiar (joinSp ws) = joinSp ws := by
  have hseps : ∀ c ∈ joinSp ws, c ≠ '_' ∧ c ≠ '.' := by
    intro c hc
    rcases mem_joinSp ws c hc with rfl | ⟨w, hw, hcw⟩
    · exact ⟨by decide, by decide⟩
    · exact ⟨((h w hw).2 c hcw).2.1, ((h w hw).2 c hcw).2.2.1⟩
  have hstable : ws.map (List.map pyLower) = ws := by
    apply map_eq_self_of
    intro w hw
    apply map_eq_self_of
    intro c hc
    exact ((h w hw).2 c hc).2.2.2
  unfold limpiar
  rw [replaceSeps_eq_self (joinSp ws) hseps, pySplit_joinSp ws h.good,
    map_joinSp pyLower (by decide) ws, hstable]
  exact pyStrip_joinSp ws h.good

theorem limpiar_limpiar (l : List Char) : limpiar (limpiar l) = limpiar l := by
  obtain ⟨ws, h, he⟩ := limpiar_shape l
  rw [he, limpiar_joinSp ws h]

/-! ## Orientation symmetry of the per-candidate scoring -/

theorem ajuste_swap (vAn vBn va vb : Option ℚ) (conf : ℚ) :
    ajusteVoltaje true vAn vBn va vb conf = ajusteVoltaje false vBn vAn va vb conf := by
  unfold ajusteVoltaje
  cases vAn <;> cases vBn <;> try rfl
  cases va <;> cases vb <;> try rfl
  simp [Bool.and_comm]

theorem score_candidato_swap (bA bB : String) (vAn vBn ve : Option ℚ) (c : OpInfo)
    (h : min (calcular_similitud_barras bA c.barra_a)
          (calcular_similitud_barras bB c.barra_b) ≠
        min (calcular_similitud_barras bA c.barra_b)
          (calcular_similitud_barras bB c.barra_a)) :
    score_candidato bB bA vBn vAn ve c =
      (score_candidato bA bB vAn vBn ve c).map
        (fun s => ⟨s.conf, s.simB, s.simA, !s.inv⟩) := by
  unfold score_candidato
  split
  · rfl
  · dsimp only
    have hswap1 : min (calcular_similitud_barras bB c.barra_a)
        (calcular_similitud_barras bA c.barra_b) =
        min (calcular_similitud_barras bA c.barra_b)
          (calcular_similitud_barras bB c.barra_a) := min_comm _ _
    have hswap2 : min (calcular_similitud_barras bB c.barra_b)
        (calcular_similitud_barras bA c.barra_a) =
        min (calcular_similitud_barras bA c.barra_a)
          (calcular_similitud_barras bB c.barra_b) := min_comm _ _
    rcases lt_or_gt_of_ne h with hlt | hgt
    · have hL : min (calcular_similitud_barras bB c.barra_a)
          (calcular_similitud_barras bA c.barra_b) ≥
          min (calcular_similitud_barras bB c.barra_b)
            (calcular_similitud_barras bA c.barra_a) := by
        rw [hswap1, hswap2]; exact le_of_lt hlt
      have hR : ¬(min (calcular_similitud_barras bA c.barra_a)
          (calcular_similitud_barras bB c.barra_b) ≥
          min (calcular_similitud_barras bA c.barra_b)
            (calcular_similitud_barras bB c.barra_a)) := not_le.mpr hlt
      rw [if_pos hL, if_neg hR]
      simp only [Option.map_some']
      rw [hswap1, ← ajuste_swap]
      rfl
    · have hL : ¬(min (calcular_similitud_barras bB c.barra_a)
          (calcular_similitud_barras bA c.barra_b) ≥
          min (calcular_similitud_barras bB c.barra_b)
            (calcular_similitud_barras bA c.barra_a)) := by
        rw [hswap1, hswap2]; exact not_le.mpr hgt
      have hR : min (calcular_similitud_barras bA c.barra_a)
          (calcular_similitud_barras bB c.barra_b) ≥
          min (calcular_similitud_barras bA c.barra_b)
            (calcular_similitud_barras bB c.barra_a) := le_of_lt hgt
      rw [if_neg hL, if_pos hR]
      simp only [Option.map_some']
      rw [hswap2, ajuste_swap]
      rfl

/-! ## Claim theorems: temporal resolver -/

/-- C5: in `aplicar_reemplazo_por_mes`, for every operational line joined to a
maintenance record, `hay_reemplazo` is true exactly when the maintenance
record is valid (`LinFMan` true) and its window contains the evaluation
month with inclusive bounds and `NaT` meaning unbounded (the unconditional
both-`NaT` case is the instance of the general formula with both bounds
open); a record with validity flag false never yields true; and concretely
`start = NaT, end = 2025-03` (month `2025*12+3`) gives true for month
`2025-03` and false for `2025-04`. -/
theorem C5_teorema :
    (∀ (fecha : ℤ) (o : OpRow) (m : ManRow), m.linFMan = some true →
      ((procesar_par fecha o (some m)).hay_reemplazo = true ↔
        ((m.linFecIni = none ∨ ∃ d, m.linFecIni = some d ∧ d ≤ fecha) ∧
         (m.linFecFin = none ∨ ∃ d, m.linFecFin = some d ∧ fecha ≤ d)))) ∧
    (∀ (fecha : ℤ) (o : OpRow) (m : ManRow), m.linFMan = some false →
      (procesar_par fecha o (some m)).hay_reemplazo = false) ∧
    ((aplicar_reemplazo_por_mes 24303 [⟨"L1", some 1, some 2, some true, none⟩]
        [⟨"L1", some true, none, some 24303, some 7, none⟩]).map (·.hay_reemplazo)
      = [true]) ∧
    ((aplicar_reemplazo_por_mes 24304 [⟨"L1", some 1, some 2, some true, none⟩]
        [⟨"L1", some true, none, some 24303, some 7, none⟩]).map (·.hay_reemplazo)
      = [false]) := by
  refine ⟨?_, ?_, by decide, by decide⟩
  · intro fecha o m hv
    cases hIni : m.linFecIni <;> cases hFin : m.linFecFin <;>
      simp [procesar_par, verificar_reemplazo, hv, hIni, hFin, ge_iff_le]
  · intro fecha o m hv
    simp [procesar_par, verificar_reemplazo, hv]

/-- C5 witness: the theorem applied to the concrete window
`start = NaT, end = 2025-03, valid = true` at month `2025-03`. -/
theorem C5_testigo :
    (⟨"L1", some true, none, some 24303, some 7, none⟩ : ManRow).linFMan = some true ∧
    (procesar_par 24303 ⟨"L1", some 1, some 2, some true, none⟩
      (some ⟨"L1", some true, none, some 24303, some 7, none⟩)).hay_reemplazo = true :=
  ⟨rfl, (C5_teorema.1 24303 ⟨"L1", some 1, some 2, some true, none⟩
      ⟨"L1", some true, none, some 24303, some 7, none⟩ rfl).mpr
    ⟨Or.inl rfl, Or.inr ⟨24303, rfl, le_refl _⟩⟩⟩

/-- C7: in `aplicar_reemplazo_por_mes`, for every output row: when
`hay_reemplazo` is true and the maintenance `LinR` (resp. `LinX`) is
non-missing, `LinR` (resp. `LinX`) takes the maintenance value and the
operational value is saved in `LinR_operacion_original` (resp. `X`); when
`hay_reemplazo` is true but the maintenance value is missing, the field
keeps the operational value (and the provenance column stays `None`); when
`hay_reemplazo` is false, both fields are the operational values
unmodified. -/
theorem C7_teorema :
    ∀ (fecha : ℤ) (o : OpRow) (m : Option ManRow),
      ((procesar_par fecha o m).hay_reemplazo = true →
        (∀ v, m.bind (·.linR) = some v →
          (procesar_par fecha o m).linR = some v ∧
          (procesar_par fecha o m).linR_operacion_original = o.linR) ∧
        (m.bind (·.linR) = none →
          (procesar_par fecha o m).linR = o.linR ∧
          (procesar_par fecha o m).linR_operacion_original = none) ∧
        (∀ v, m.bind (·.linX) = some v →
          (procesar_par fecha o m).linX = some v ∧
          (procesar_par fecha o m).linX_operacion_original = o.linX) ∧
        (m.bind (·.linX) = none →
          (procesar_par fecha o m).linX = o.linX ∧
          (procesar_par fecha o m).linX_operacion_original = none)) ∧
      ((procesar_par fecha o m).hay_reemplazo = false →
        (procesar_par fecha o m).linR = o.linR ∧
        (procesar_par fecha o m).linX = o.linX ∧
        (procesar_par fecha o m).linR_operacion_original = none ∧
        (procesar_par fecha o m).linX_operacion_original = none) := by
  intro fecha o m
  refine ⟨?_, ?_⟩
  · intro h
    have hv : verificar_reemplazo fecha m = true := h
    refine ⟨?_, ?_, ?_, ?_⟩
    · intro v hR
      simp [procesar_par, hv, hR]
    · intro hR
      simp [procesar_par, hv, hR]
    · intro v hX
      simp [procesar_par, hv, hX]
    · intro hX
      simp [procesar_par, hv, hX]
  · intro h
    have hv : verificar_reemplazo fecha m = false := h
    simp [procesar_par, hv]

/-- C7 witness: a concrete always-active maintenance window supplying `LinR`
but not `LinX`: `LinR` is replaced (operational value saved), `LinX` falls
back to the operational value. -/
theorem C7_testigo :
    (procesar_par 0 ⟨"L", some 1, some 2, some true, none⟩
        (some ⟨"L", some true, none, none, some 7, none⟩)).hay_reemplazo = true ∧
    (procesar_par 0 ⟨"L", some 1, some 2, some true, none⟩
        (some ⟨"L", some true, none, none, some 7, none⟩)).linR = some 7 ∧
    (procesar_par 0 ⟨"L", some 1, some 2, some true, none⟩
        (some ⟨"L", some true, none, none, some 7, none⟩)).linR_operacion_original = some 1 ∧
    (procesar_par 0 ⟨"L", some 1, some 2, some true, none⟩
        (some ⟨"L", some true, none, none, some 7, none⟩)).linX = some 2 ∧
    (procesar_par 0 ⟨"L", some 1, some 2, some true, none⟩
        (some ⟨"L", some true, none, none, some 7, none⟩)).linX_operacion_original = none := by
  have h := C7_teorema 0 ⟨"L", some 1, some 2, some true, none⟩
    (some ⟨"L", some true, none, none, some 7, none⟩)
  have hhay : (procesar_par 0 ⟨"L", some 1, some 2, some true, none⟩
      (some ⟨"L", some true, none, none, some 7, none⟩)).hay_reemplazo = true := by decide
  refine ⟨hhay, ?_, ?_, ?_, ?_⟩
  · exact ((h.1 hhay).1 7 rfl).1
  · exact ((h.1 hhay).1 7 rfl).2
  · exact ((h.1 hhay).2.2.2 rfl).1
  · exact ((h.1 hhay).2.2.2 rfl).2

/-! ## Claim theorems: transformer R/X -/

/-- C9: `calcular_rx_transformador` is total (by construction of the
embedding) and reports impossible physical values as data: `R_ohm`/`X_ohm`
are non-`None` exactly when all four inputs are present, `S_MVA > 0`,
`V_kV > 0` and `R%² ≤ Z%²` (with `R% = Pcu·100/(S·1000)`), in which case the
reason is `None`; and when `Z%² < R%²` (under presence and positivity) the
result is `(None, None, <reason string>)`.  Stated for every model `sqrtQ`
of `np.sqrt`. -/
theorem C9_teorema :
    ∀ (sqrtQ : ℚ → ℚ) (S V Z P : Option ℚ),
      (((calcular_rx_transformador sqrtQ S V Z P).1.isSome ∧
          (calcular_rx_transformador sqrtQ S V Z P).2.1.isSome) ↔
        (∃ s v z p, S = some s ∧ V = some v ∧ Z = some z ∧ P = some p ∧
          0 < s ∧ 0 < v ∧
          (p * 100 / (s * 1000)) * (p * 100 / (s * 1000)) ≤ z * z)) ∧
      ((calcular_rx_transformador sqrtQ S V Z P).1.isSome →
        (calcular_rx_transformador sqrtQ S V Z P).2.2 = none) ∧
      (∀ s v z p, S = some s → V = some v → Z = some z → P = some p →
        0 < s → 0 < v →
        z * z < (p * 100 / (s * 1000)) * (p * 100 / (s * 1000)) →
        (calcular_rx_transformador sqrtQ S V Z P).1 = none ∧
        (calcular_rx_transformador sqrtQ S V Z P).2.1 = none ∧
        (calcular_rx_transformador sqrtQ S V Z P).2.2.isSome) := by
  intro sqrtQ S V Z P
  cases S with
  | none => simp [calcular_rx_transformador]
  | some s =>
    cases V with
    | none => simp [calcular_rx_transformador]
    | some v =>
      cases Z with
      | none => simp [calcular_rx_transformador]
      | some z =>
        cases P with
        | none => simp [calcular_rx_transformador]
        | some p =>
          by_cases h1 : s ≤ 0
          · simp only [calcular_rx_transformador, if_pos h1]
            refine ⟨?_, by simp, ?_⟩
            · simp only [Option.isSome_none, Bool.false_eq_true, false_and,
                false_iff]
              rintro ⟨s2, v2, z2, p2, hs, hv2, hz, hp, hs0, hv0, hle⟩
              obtain rfl := Option.some.inj hs
              linarith
            · intro s2 v2 z2 p2 hs hv2 hz hp hs0 hv0 hlt
              obtain rfl := Option.some.inj hs
              linarith
          · by_cases h2 : v ≤ 0
            · simp only [calcular_rx_transformador, if_neg h1, if_pos h2]
              refine ⟨?_, by simp, ?_⟩
              · simp only [Option.isSome_none, Bool.false_eq_true, false_and,
                  false_iff]
                rintro ⟨s2, v2, z2, p2, hs, hv2, hz, hp, hs0, hv0, hle⟩
                obtain rfl := Option.some.inj hv2
                linarith
              · intro s2 v2 z2 p2 hs hv2 hz hp hs0 hv0 hlt
                obtain rfl := Option.some.inj hv2
                linarith
            · by_cases h3 : z * z < (p * 100 / (s * 1000)) * (p * 100 / (s * 1000))
              · simp only [calcular_rx_transformador, if_neg h1, if_neg h2,
                  if_pos h3]
                refine ⟨?_, by simp, ?_⟩
                · simp only [Option.isSome_none, Bool.false_eq_true, false_and,
                    false_iff]
                  rintro ⟨s2, v2, z2, p2, hs, hv2, hz, hp, hs0, hv0, hle⟩
                  obtain rfl := Option.some.inj hs
                  obtain rfl := Option.some.inj hz
                  obtain rfl := Option.some.inj hp
                  linarith
                · intro s2 v2 z2 p2 hs hv2 hz hp hs0 hv0 hlt
                  simp
              · simp only [calcular_rx_transformador, if_neg h1, if_neg h2,
                  if_neg h3]
                refine ⟨?_, by simp, ?_⟩
                · simp only [Option.isSome_some, true_and, true_iff]
                  exact ⟨s, v, z, p, rfl, rfl, rfl, rfl, lt_of_not_le h1,
                    lt_of_not_le h2, not_lt.mp h3⟩
                · intro s2 v2 z2 p2 hs hv2 hz hp hs0 hv0 hlt
                  obtain rfl := Option.some.inj hs
                  obtain rfl := Option.some.inj hz
                  obtain rfl := Option.some.inj hp
                  exact absurd hlt h3

/-- C9 witness: the theorem applied at a concrete impossible record
(`Z% = 1`, `R% = 2`), and at a concrete successful record. -/
theorem C9_testigo :
    ((calcular_rx_transformador id (some 1) (some 1) (some 1) (some 20)).1 = none ∧
     (calcular_rx_transformador id (some 1) (some 1) (some 1) (some 20)).2.1 = none ∧
     (calcular_rx_transformador id (some 1) (some 1) (some 1) (some 20)).2.2.isSome) ∧
    (calcular_rx_transformador id (some 100) (some 220) (some 10) (some 200)).2.2 = none := by
  constructor
  · exact (C9_teorema id (some 1) (some 1) (some 1) (some 20)).2.2 1 1 1 20
      rfl rfl rfl rfl (by norm_num) (by norm_num) (by norm_num)
  · exact (C9_teorema id (some 100) (some 220) (some 10) (some 200)).2.1 (by decide)

/-! ## Claim theorems: matcher -/

/-- C1 (code evaluated at the failing input): `homologar_lineas` never
compares the best score against `umbral_confianza` when deciding
`match_linnom` — with the default threshold 50, a reference row whose best
candidate score is 25 still gets a non-null `match_linnom` together with
`confianza = 25 < 50`, contradicting the claimed equivalence
"`match_linnom` is null iff `confianza < 50`" (and the function's own
docstring for `umbral_confianza`). -/
theorem C1_match_bajo_umbral :
    ((homologar_lineas 50
        [⟨"ABCD______110->ABCD______110", "ABCD______110", "ABCD______110", some 110⟩]
        [⟨"Axyz 110->Axyz 110", "axyz", "axyz", some 110, none, none, none⟩]).map
      (fun r => (r.match_linnom, r.confianza)) =
      [(some "Axyz 110->Axyz 110", 25)]) ∧ (25 : ℚ) < 50 := by
  constructor
  · decide
  · norm_num

/-- C2 counterexample: a perfect name match whose name voltages agree on
both sides receives the `+2` bonus, so the reported `confianza` is `102`,
which violates both `confianza ≤ 100` and
`confianza ≤ min sim_barra_a sim_barra_b` (here `min 100 100`). -/
theorem C2_contraejemplo :
    ¬((homologar_fila 50
          ⟨"QUX_______220->ZOR_______110", "QUX_______220", "ZOR_______110", some 220⟩
          [⟨"Qux 220->Zor 110", "qux", "zor", some 220, some 220, some 110, none⟩]).confianza ≤ 100 ∧
      (homologar_fila 50
          ⟨"QUX_______220->ZOR_______110", "QUX_______220", "ZOR_______110", some 220⟩
          [⟨"Qux 220->Zor 110", "qux", "zor", some 220, some 220, some 110, none⟩]).confianza ≤
        min (homologar_fila 50
          ⟨"QUX_______220->ZOR_______110", "QUX_______220", "ZOR_______110", some 220⟩
          [⟨"Qux 220->Zor 110", "qux", "zor", some 220, some 220, some 110, none⟩]).sim_barra_a
          (homologar_fila 50
          ⟨"QUX_______220->ZOR_______110", "QUX_______220", "ZOR_______110", some 220⟩
          [⟨"Qux 220->Zor 110", "qux", "zor", some 220, some 220, some 110, none⟩]).sim_barra_b) := by
  decide

/-- C2 (amended): for every `MatchResult` produced by `homologar_lineas` the
reported `confianza` lies in `[0, 102]` and satisfies
`confianza ≤ min sim_barra_a sim_barra_b + 2` exactly — the `+2`
voltage-agreement bonus is the only way `confianza` can exceed the base
score `min (sim_a, sim_b)`, and it can push it up to `102`. -/
theorem C2_teorema :
    ∀ (umbral : ℚ) (df_ent : List EntRow) (pool : List OpInfo),
      ∀ r ∈ homologar_lineas umbral df_ent pool,
        0 ≤ r.confianza ∧ r.confianza ≤ 102 ∧
          r.confianza ≤ min r.sim_barra_a r.sim_barra_b + 2 := by
  intro u ent pool r hr
  unfold homologar_lineas at hr
  rcases List.mem_map.mp hr with ⟨row, _, rfl⟩
  have hInv := buscar_inv (normalizar_barra_ent row.barra_a)
    (normalizar_barra_ent row.barra_b) (extraer_voltajes_de_nombre_ent row.nombre).1
    (extraer_voltajes_de_nombre_ent row.nombre).2 row.voltaje_kv pool
  obtain ⟨h1, h2, h3, -, -, -, -⟩ := hInv
  refine ⟨round1_nonneg _ h1, round1_le_102 _ h2, ?_⟩
  have hm := round1_mono h3
  rw [round1_add_two, round1_min] at hm
  exact hm

/-- C2 witness: the amended bounds at the concrete run that attains
`confianza = 102`. -/
theorem C2_testigo :
    0 ≤ (homologar_fila 50
        ⟨"QUX_______220->ZOR_______110", "QUX_______220", "ZOR_______110", some 220⟩
        [⟨"Qux 220->Zor 110", "qux", "zor", some 220, some 220, some 110, none⟩]).confianza ∧
    (homologar_fila 50
        ⟨"QUX_______220->ZOR_______110", "QUX_______220", "ZOR_______110", some 220⟩
        [⟨"Qux 220->Zor 110", "qux", "zor", some 220, some 220, some 110, none⟩]).confianza ≤ 102 ∧
    (homologar_fila 50
        ⟨"QUX_______220->ZOR_______110", "QUX_______220", "ZOR_______110", some 220⟩
        [⟨"Qux 220->Zor 110", "qux", "zor", some 220, some 220, some 110, none⟩]).confianza ≤
      min (homologar_fila 50
        ⟨"QUX_______220->ZOR_______110", "QUX_______220", "ZOR_______110", some 220⟩
        [⟨"Qux 220->Zor 110", "qux", "zor", some 220, some 220, some 110, none⟩]).sim_barra_a
        (homologar_fila 50
        ⟨"QUX_______220->ZOR_______110", "QUX_______220", "ZOR_______110", some 220⟩
        [⟨"Qux 220->Zor 110", "qux", "zor", some 220, some 220, some 110, none⟩]).sim_barra_b + 2 :=
  C2_teorema 50
    [⟨"QUX_______220->ZOR_______110", "QUX_______220", "ZOR_______110", some 220⟩]
    [⟨"Qux 220->Zor 110", "qux", "zor", some 220, some 220, some 110, none⟩] _
    (by simp [homologar_lineas])

/-- C3 (code evaluated at the failing input): neither candidate search
filters by circuit — a candidate whose circuit (2) differs from the
reference circuit (1) is still selected as best match, both in
`homologar_lineas` and in the candidate search of
`homologar_con_infotecnica`, contradicting the claimed exclusion (and the
latter's own docstring). -/
theorem C3_sin_filtro_circuito :
    ((homologar_lineas 50
        [⟨"FOO_______220->BAR_______220_1de2", "FOO_______220", "BAR_______220", some 220⟩]
        [⟨"Foo 220->Bar 220 II", "foo", "bar", some 220, some 220, some 220, some 2⟩]).map
      (fun r => (r.match_linnom, r.circuito_ent, r.circuito_op)) =
      [(some "Foo 220->Bar 220 II", some 1, some 2)]) ∧
    (buscar_mejor_infotec "foo" "bar" (some 220) (some 220)
        [⟨"FOO - BAR 220KV C2", "foo", "bar", some 220, none, some 2⟩]).mejor =
      some ⟨"FOO - BAR 220KV C2", "foo", "bar", some 220, none, some 2⟩ := by
  decide

/-! ## Claim theorems: normalization -/

/-- C4 counterexample: `normalizar_barra_ent` does not apply the
abbreviation table (the source documents `expandir_abreviaciones` as
manual-only and never calls it): the raw label `"D.ALMAGRO1____220"`
normalizes to `"d almagro1"`, which does not contain
`"diego de almagro"`. -/
theorem C4_contraejemplo :
    normalizar_barra_ent "D.ALMAGRO1____220" = "d almagro1" ∧
    isSub "diego de almagro".data
      (normalizar_barra_ent "D.ALMAGRO1____220").data = false := by
  decide

/-- C4 (amended): when `expandir_abreviaciones` (which contains
`D.ALMAGRO → DIEGO DE ALMAGRO`) is applied explicitly before
`normalizar_barra_ent`, the claim holds: the key contains
`"diego de almagro"` and `calcular_similitud_barras` against the
normalized form of `"Diego de Almagro"` is at least 90. -/
theorem C4_teorema :
    isSub "diego de almagro".data
      (normalizar_barra_ent (expandir_abreviaciones "D.ALMAGRO1____220")).data = true ∧
    90 ≤ calcular_similitud_barras
      (normalizar_barra_ent (expandir_abreviaciones "D.ALMAGRO1____220"))
      (normalizar_barra_ent "Diego de Almagro") := by
  refine ⟨by decide, ?_⟩
  apply similitud_ge_90_de_contencion
  right
  decide

/-- C6 counterexample: the normalizers are not idempotent — when the first
pass's output itself ends in a voltage-like digit run the second pass
strips again: `normalizar_barra_ent "99 220" = "99"` but a second
application gives `""`; `normalizar_barra_op "Foo 12 345" = "foo 12"` but a
second application gives `"foo"`. -/
theorem C6_contraejemplo :
    normalizar_barra_ent (normalizar_barra_ent "99 220") ≠
      normalizar_barra_ent "99 220" ∧
    normalizar_barra_op (normalizar_barra_op "Foo 12 345") ≠
      normalizar_barra_op "Foo 12 345" := by
  decide

/-- C6 (amended): each normalizer is idempotent on every input whose
normalized output is a fixed point of its voltage-suffix stripper (i.e.
does not itself end in a strippable 2-3 digit voltage suffix); every other
step of the pipeline is always a no-op on normalized output. -/
theorem C6_teorema :
    (∀ s : String,
      stripVoltEnt (normalizar_barra_ent s).data = (normalizar_barra_ent s).data →
      normalizar_barra_ent (normalizar_barra_ent s) = normalizar_barra_ent s) ∧
    (∀ s : String,
      stripVoltOp (normalizar_barra_op s).data = (normalizar_barra_op s).data →
      normalizar_barra_op (normalizar_barra_op s) = normalizar_barra_op s) := by
  constructor
  · intro s h
    rw [normalizar_barra_ent_eq (normalizar_barra_ent s), h,
      normalizar_barra_ent_eq s]
    show (⟨limpiar (limpiar (stripVoltEnt s.data))⟩ : String) =
      ⟨limpiar (stripVoltEnt s.data)⟩
    rw [limpiar_limpiar]
  · intro s h
    rw [normalizar_barra_op_eq (normalizar_barra_op s), h,
      normalizar_barra_op_eq s]
    show (⟨limpiar (limpiar (stripVoltOp s.data))⟩ : String) =
      ⟨limpiar (stripVoltOp s.data)⟩
    rw [limpiar_limpiar]

/-- C6 witness: both normalizers applied twice to concrete fixed-point
inputs. -/
theorem C6_testigo :
    (stripVoltEnt (normalizar_barra_ent "PAPOSO________220").data =
        (normalizar_barra_ent "PAPOSO________220").data ∧
      normalizar_barra_ent (normalizar_barra_ent "PAPOSO________220") =
        normalizar_barra_ent "PAPOSO________220") ∧
    (stripVoltOp (normalizar_barra_op "Paposo 220").data =
        (normalizar_barra_op "Paposo 220").data ∧
      normalizar_barra_op (normalizar_barra_op "Paposo 220") =
        normalizar_barra_op "Paposo 220") :=
  ⟨⟨by decide, C6_teorema.1 "PAPOSO________220" (by decide)⟩,
   ⟨by decide, C6_teorema.2 "Paposo 220" (by decide)⟩⟩

/-! ## Claim theorems: orientation symmetry and the containment bonus -/

/-- C8 counterexample: at an exact tie between the normal and the inverted
base score the claim fails — both runs keep the non-inverted orientation
(the flag is `false` in both, not flipped), and the voltage adjustment can
then even differ: the original run scores `+2` while the swapped run scores
`-3`. -/
theorem C8_contraejemplo :
    score_candidato "pq" "zz" (some 220) (some 110) none
        ⟨"Pq 220->Pq 110", "pq", "pq", none, some 220, some 110, none⟩ =
      some ⟨2, 100, 0, false⟩ ∧
    score_candidato "zz" "pq" (some 110) (some 220) none
        ⟨"Pq 220->Pq 110", "pq", "pq", none, some 220, some 110, none⟩ =
      some ⟨-3, 0, 100, false⟩ := by
  decide

/-- C8 (amended): for every candidate for which the normal and inverted
base scores are not exactly tied, scoring the swapped reference `(B, A)`
(with the per-side name voltages swapped accordingly) yields the same
adjusted score with the per-side similarities exchanged and the
`match_invertido` flag flipped; the voltage filter is unaffected by the
swap. -/
theorem C8_teorema :
    ∀ (bA bB : String) (vAn vBn ve : Option ℚ) (c : OpInfo),
      min (calcular_similitud_barras bA c.barra_a)
          (calcular_similitud_barras bB c.barra_b) ≠
        min (calcular_similitud_barras bA c.barra_b)
          (calcular_similitud_barras bB c.barra_a) →
      score_candidato bB bA vBn vAn ve c =
        (score_candidato bA bB vAn vBn ve c).map
          (fun s => ⟨s.conf, s.simB, s.simA, !s.inv⟩) :=
  fun bA bB vAn vBn ve c h => score_candidato_swap bA bB vAn vBn ve c h

/-- C8 witness: the amended symmetry at a concrete non-tied candidate. -/
theorem C8_testigo :
    (min (calcular_similitud_barras "foo" "foo")
        (calcular_similitud_barras "bar" "bar") ≠
      min (calcular_similitud_barras "foo" "bar")
        (calcular_similitud_barras "bar" "foo")) ∧
    score_candidato "bar" "foo" none none none
        ⟨"FOO->BAR", "foo", "bar", none, none, none, none⟩ =
      (score_candidato "foo" "bar" none none none
        ⟨"FOO->BAR", "foo", "bar", none, none, none, none⟩).map
          (fun s => ⟨s.conf, s.simB, s.simA, !s.inv⟩) :=
  ⟨by decide, C8_teorema "foo" "bar" none none none
    ⟨"FOO->BAR", "foo", "bar", none, none, none, none⟩ (by decide)⟩

/-- C10: whenever the space-stripped form of one argument is a substring of
the space-stripped form of the other, `calcular_similitud_barras` returns
at least 90; in particular an empty normalized key scores at least 90
against every candidate (the empty string is a substring of everything), so
records with an empty endpoint can obtain high-confidence matches. -/
theorem C10_teorema :
    (∀ a b : String,
      (isSub (quitarEspacios a.data) (quitarEspacios b.data) = true ∨
        isSub (quitarEspacios b.data) (quitarEspacios a.data) = true) →
      90 ≤ calcular_similitud_barras a b) ∧
    (∀ b : String, 90 ≤ calcular_similitud_barras "" b) := by
  constructor
  · exact similitud_ge_90_de_contencion
  · intro b
    apply similitud_ge_90_de_contencion
    left
    exact isSub_nil _

/-- C10 witness: the containment bonus at a concrete pair. -/
theorem C10_testigo :
    (isSub (quitarEspacios "tap taltal".data) (quitarEspacios "taptaltal 1".data) = true ∨
      isSub (quitarEspacios "taptaltal 1".data) (quitarEspacios "tap taltal".data) = true) ∧
    90 ≤ calcular_similitud_barras "tap taltal" "taptaltal 1" :=
  ⟨Or.inl (by decide),
   C10_teorema.1 "tap taltal" "taptaltal 1" (Or.inl (by decide))⟩

end BalancePotencia
